import Mathlib

/-!
Shallow embedding of `src/convert.ts` (a document-to-Markdown conversion
CLI) and proofs about its orchestration logic.

The embedding models:
* Node's `path.extname` / `path.basename` / `path.dirname` string functions
  (for paths without trailing slashes, the only shape the program produces);
* the literal `supportedExtensions` allow-list and the extension gate;
* the pure PDF text reformatting in `convertPdfToMarkdown`;
* the filesystem as an association list of files plus a list of directories,
  with the operations the program performs (`mkdir -p`, `rm`, recursive `rm`,
  `writeFile`, `stat`/`access` where an absent path models `ENOENT`);
* the external collaborators (mammoth+turndown, pdf-parse, the LibreOffice
  subprocess, `mkdtemp` suffix generation, write failures) as oracles in an
  `Env` record, since the spec treats them as opaque;
* `convertDocument`, `convertDocToDocx`, `convertSingleFile`,
  `convertDirectory` and `main` as explicit state-passing functions over a
  `World` (filesystem + an event trace recording the side effects and log
  lines the source performs, in order).
-/

/-! ## String utilities (structural recursion, so the kernel can evaluate
them at concrete inputs) -/

/-- Split a character list on a separator character; JS
`String.prototype.split` semantics for a one-character separator. -/
def splitOnCharAux (sep : Char) : List Char → List Char → List (List Char)
  | [], cur => [cur.reverse]
  | c :: rest, cur =>
    if c == sep then cur.reverse :: splitOnCharAux sep rest []
    else splitOnCharAux sep rest (c :: cur)

/-- Split a string on a separator character. -/
def splitStr (sep : Char) (s : String) : List String :=
  (splitOnCharAux sep s.data []).map String.mk

/-- Join strings with a separator, as JS `Array.prototype.join`. -/
def joinWith (sep : String) : List String → String
  | [] => ""
  | [x] => x
  | x :: y :: xs => x ++ sep ++ joinWith sep (y :: xs)

/-- ASCII lowercasing, as JS `toLowerCase` behaves on ASCII extensions. -/
def strToLower (s : String) : String := String.mk (s.data.map Char.toLower)

/-- `suf` is a suffix of `s`. -/
def strEndsWith (s suf : String) : Bool := suf.data.reverse.isPrefixOf s.data.reverse

/-- Drop the last `n` characters. -/
def strDropRight (s : String) (n : Nat) : String :=
  String.mk (s.data.take (s.data.length - n))

/-- `pre` is an initial segment of `s`. -/
def startsWithStr (pre s : String) : Bool := pre.data.isPrefixOf s.data

/-- JS whitespace characters relevant to `String.prototype.trim` (ASCII
whitespace plus NBSP and BOM). -/
def isJsWhite (c : Char) : Bool :=
  c == ' ' || c == '\t' || c == '\n' || c == '\r' ||
  c == Char.ofNat 0x0B || c == Char.ofNat 0x0C ||
  c == Char.ofNat 0xA0 || c == Char.ofNat 0xFEFF

/-- JS `String.prototype.trim`: strip leading and trailing whitespace. -/
def jsTrim (s : String) : String :=
  String.mk (((s.data.dropWhile isJsWhite).reverse.dropWhile isJsWhite).reverse)

/-! ## Path functions (Node `path` module, for slash-normal paths) -/

/-- Node `path.basename(p)`: the final path component (paths here never end
in a slash). -/
def basename (p : String) : String := (splitStr '/' p).getLastD ""

/-- Index of the last `'.'` in a character list, if any. -/
def lastDotPosAux : List Char → Nat → Option Nat → Option Nat
  | [], _, acc => acc
  | c :: rest, i, acc =>
    lastDotPosAux rest (i + 1) (if c == '.' then some i else acc)

/-- Node `path.extname(p)`: the extension of the basename, from its last dot;
empty when there is no dot, when the only dot leads the basename (dotfiles),
or for `".."`. -/
def extname (p : String) : String :=
  let b := basename p
  match lastDotPosAux b.data 0 none with
  | none => ""
  | some 0 => ""
  | some i => if b == ".." then "" else String.mk (b.data.drop i)

/-- Node `path.dirname(p)`: everything before the final slash, `"."` when
there is none. -/
def dirname (p : String) : String :=
  let parts := splitStr '/' p
  if parts.length ≤ 1 then "." else joinWith "/" parts.dropLast

/-- Node `path.basename(b, ext)` applied to a bare basename `b`: strips a
trailing `ext` unless it is empty or the whole name. -/
def basenameDrop (b ext : String) : String :=
  if ext == "" then b
  else if b == ext then b
  else if strEndsWith b ext then strDropRight b ext.data.length
  else b

/-- `q` lies at or below `root` in the path tree (used by recursive `rm`). -/
def underPath (root q : String) : Bool :=
  q == root || startsWithStr (root ++ "/") q

/-! ## The supported-extension allow-list (`supportedExtensions` in the
source, lines 12–19) and the gate used at lines 148 and 192. -/

/-- The literal allow-list `supportedExtensions`. -/
def supportedExtensions : List String :=
  [".docx", ".DOCX", ".doc", ".DOC", ".pdf", ".PDF"]

/-- `supportedExtensions.has(path.extname(p))`: the format gate. -/
def gateAccepts (p : String) : Bool :=
  supportedExtensions.contains (extname p)

/-! ## PDF text reformatting (`convertPdfToMarkdown`, lines 109–118):
split on newlines, keep lines whose trim is truthy, trim each, keep
non-empty, join with a blank line. -/

/-- The pure tail of `convertPdfToMarkdown` applied to extracted text. -/
def pdfTextToMarkdown (text : String) : String :=
  let lines := (splitStr '\n' text).filter (fun l => !(jsTrim l == ""))
  joinWith "\n\n" ((lines.map jsTrim).filter (fun l => decide (0 < l.length)))

/-! ## Filesystem and world model -/

/-- What `fs.stat` can report for an existing path. -/
inductive FsNode where
  | fileNode (content : String)
  | dirNode
deriving DecidableEq, Repr

/-- The filesystem: regular files with contents, plus directories.  An
absent path models the `ENOENT` outcome of `stat`/`access`. -/
structure FS where
  files : List (String × String)
  dirs : List String
deriving DecidableEq, Repr

/-- Content of the regular file at `p`, if one exists. -/
def lookupFile (fs : FS) (p : String) : Option String := fs.files.lookup p

/-- `fs.stat(p)` / `fs.access(p)`: directories take precedence (a path is
never both in a real filesystem); `none` models `ENOENT`. -/
def statNode (fs : FS) (p : String) : Option FsNode :=
  if fs.dirs.contains p then some .dirNode
  else match lookupFile fs p with
    | some c => some (.fileNode c)
    | none => none

/-- `fs.writeFile(p, c)`: replace any file at `p` with content `c`. -/
def addFile (p c : String) (fs : FS) : FS :=
  { fs with files := (p, c) :: fs.files.filter (fun kv => !(kv.1 == p)) }

/-- `fs.rm(p, { force: true })` on a regular file: remove it, no error when
absent. -/
def removeFile (p : String) (fs : FS) : FS :=
  { fs with files := fs.files.filter (fun kv => !(kv.1 == p)) }

/-- `fs.mkdir(p, { recursive: true })`: ensure the directory exists (the
model records the requested directory itself). -/
def addDir (p : String) (fs : FS) : FS :=
  if fs.dirs.contains p then fs else { fs with dirs := p :: fs.dirs }

/-- `fs.rm(p, { recursive: true, force: true })`: remove `p` and everything
below it, file or directory, no error when absent. -/
def rmTreeFS (p : String) (fs : FS) : FS :=
  { files := fs.files.filter (fun kv => !(underPath p kv.1)),
    dirs := fs.dirs.filter (fun d => !(underPath p d)) }

/-- Observable side effects and log lines, in program order. -/
inductive Event where
  | mkdirp (p : String)
  | statPath (p : String)
  | rmFileEv (p : String)
  | rmTreeEv (p : String)
  | writeFile (p : String)
  | mkdtempEv (p : String)
  | adapterCall (p : String)
  | skipEv (p : String)
  | okEv (src dst : String)
  | errorEv (src msg : String)
  | warnEv (p : String)
deriving DecidableEq, Repr

/-- Program state: the filesystem plus the trace of events so far. -/
structure World where
  fs : FS
  events : List Event
deriving DecidableEq, Repr

/-- Append an event to the trace. -/
def emit (e : Event) (w : World) : World := { w with events := w.events ++ [e] }

/-- `fs.mkdir(p, { recursive: true })` with its trace entry. -/
def doMkdirp (p : String) (w : World) : World :=
  ⟨addDir p w.fs, w.events ++ [.mkdirp p]⟩

/-- `fs.rm(p, { force: true })` with its trace entry. -/
def doRmFile (p : String) (w : World) : World :=
  ⟨removeFile p w.fs, w.events ++ [.rmFileEv p]⟩

/-- `fs.rm(p, { recursive: true, force: true })` with its trace entry. -/
def doRmTree (p : String) (w : World) : World :=
  ⟨rmTreeFS p w.fs, w.events ++ [.rmTreeEv p]⟩

/-! ## External collaborators as oracles -/

/-- Results of the opaque external capabilities, per the spec's interface
list: mammoth+turndown (with the image-stripping rule) as a function of the
docx path; pdf-parse text extraction as a function of the file bytes; the
LibreOffice subprocess outcome and the artifact content it writes; the
`mkdtemp` unique suffix; and possible `fs.writeFile` failures. -/
structure Env where
  docxToMarkdown : String → Except String String
  pdfExtract : String → Except String String
  soffice : String → Except String Unit
  sofficeOutput : String → Option String
  tmpSuffix : String → String
  writeError : String → Option String

/-- Return value of `convertDocToDocx`: the derived docx path plus the
temporary directory whose recursive removal is the `cleanup` action. -/
structure TempArtifact where
  docxPath : String
  tempDir : String
deriving DecidableEq, Repr

/-! ## The document-to-Markdown adapter (`convertDocument` and helpers) -/

/-- `convertDocxToMarkdown` (lines 51–54): mammoth DOCX→HTML then turndown
HTML→Markdown with the image-removal rule — one opaque composite. -/
def convertDocxToMarkdown (env : Env) (filePath : String) : Except String String :=
  env.docxToMarkdown filePath

/-- `convertDocToDocx` (lines 83–101): make a `mkdtemp` directory under the
system temp prefix `input-docx-`, run the LibreOffice subprocess, check the
expected artifact with `fs.access`, and return its path plus the cleanup
handle.  On success the subprocess writes the artifact into the temp
directory.  Note the temp directory is created before any failure can
occur, and no cleanup runs on the failure paths of this function itself. -/
def convertDocToDocx (env : Env) (filePath : String) (w : World) :
    Except String TempArtifact × World :=
  let tempDir := "/tmp/input-docx-" ++ env.tmpSuffix filePath
  let w : World := ⟨addDir tempDir w.fs, w.events ++ [.mkdtempEv tempDir]⟩
  match env.soffice filePath with
  | .error e => (.error e, w)
  | .ok _ =>
    let docxPath :=
      tempDir ++ "/" ++ (basenameDrop (basename filePath) (extname filePath) ++ ".docx")
    let w : World :=
      match env.sofficeOutput filePath with
      | some content => ⟨addFile docxPath content w.fs, w.events⟩
      | none => w
    match statNode w.fs docxPath with
    | none => (.error ("ENOENT: no such file or directory, access " ++ docxPath), w)
    | some _ => (.ok ⟨docxPath, tempDir⟩, w)

/-- `convertDocument` (lines 121–141): dispatch on the lowercased extension;
`.docx` → mammoth+turndown; `.doc` → materialize a temp docx, convert it the
same way, and (in a `finally`) recursively remove the temp directory; `.pdf`
→ read the bytes, extract text, reformat; otherwise throw unsupported.  The
`adapterCall` event marks each invocation of this adapter. -/
def convertDocument (env : Env) (filePath : String) (w : World) :
    Except String String × World :=
  let w := emit (.adapterCall filePath) w
  let ext := strToLower (extname filePath)
  if ext == ".docx" then
    (convertDocxToMarkdown env filePath, w)
  else if ext == ".doc" then
    match convertDocToDocx env filePath w with
    | (.error e, w) => (.error e, w)
    | (.ok art, w) =>
      (convertDocxToMarkdown env art.docxPath, doRmTree art.tempDir w)
  else if ext == ".pdf" then
    match lookupFile w.fs filePath with
    | none => (.error ("ENOENT: no such file or directory, open " ++ filePath), w)
    | some buf =>
      match env.pdfExtract buf with
      | .error e => (.error e, w)
      | .ok text => (.ok (pdfTextToMarkdown text), w)
  else
    (.error ("Unsupported file type: " ++ filePath), w)

/-! ## Single-file orchestration (`convertSingleFile`, lines 143–177) -/

/-- The convert-then-write tail shared by the non-skip paths of
`convertSingleFile` (lines 174–176). -/
def convertAndWriteSingle (env : Env) (inputPath outputPath : String) (w : World) :
    Except String Unit × World :=
  match convertDocument env inputPath w with
  | (.error e, w) => (.error e, w)
  | (.ok md, w) =>
    match env.writeError outputPath with
    | some e => (.error e, w)
    | none =>
      (.ok (), emit (.okEv inputPath outputPath)
        ⟨addFile outputPath md w.fs, w.events ++ [.writeFile outputPath]⟩)

/-- `convertSingleFile`: reject unsupported extensions; ensure the output's
parent directory; probe the output path (`ENOENT` is the benign case, a
directory is an error, an existing file is deleted under `clearOutput` and
otherwise causes a logged skip); then convert and write. -/
def convertSingleFile (env : Env) (inputPath outputPath : String)
    (clearOutput : Bool) (w : World) : Except String Unit × World :=
  if !(supportedExtensions.contains (extname inputPath)) then
    (.error ("Unsupported input file: " ++ inputPath), w)
  else
    let w := doMkdirp (dirname outputPath) w
    let w := emit (.statPath outputPath) w
    match statNode w.fs outputPath with
    | some .dirNode =>
      (.error "Output path points to a directory but a file was expected", w)
    | some (.fileNode _) =>
      if clearOutput then
        convertAndWriteSingle env inputPath outputPath (doRmFile outputPath w)
      else
        (.ok (), emit (.skipEv outputPath) w)
    | none => convertAndWriteSingle env inputPath outputPath w

/-! ## Directory orchestration (`convertDirectory`, lines 179–227) -/

/-- A `readdir` entry (`withFileTypes`): name plus whether it is a regular
file. -/
structure DirEntry where
  name : String
  isFile : Bool
deriving DecidableEq, Repr

/-- The enumeration filter (lines 190–192): regular files whose extension is
in the allow-list. -/
def eligibleFiles (entries : List DirEntry) : List DirEntry :=
  entries.filter (fun e => e.isFile && supportedExtensions.contains (extname e.name))

/-- `path.join(inputDir, entry.name)`. -/
def srcPathOf (inputDir name : String) : String := inputDir ++ "/" ++ name

/-- `path.join(outputDir, basename-without-extension + ".md")` (lines
201–202). -/
def tgtPathOf (outputDir name : String) : String :=
  outputDir ++ "/" ++ (basenameDrop (basename name) (extname name) ++ ".md")

/-- The per-file loop body (lines 199–226).  Outside `clearOutput`, probe
the target and skip when it exists (a probe failure other than `ENOENT`
would also be logged and skipped, which the total `statNode` cannot
produce); under `clearOutput`, best-effort delete the target.  Then convert
and write inside a per-file `try`/`catch` that logs failures and continues —
this function returning `World` with no error channel is that catch. -/
def processEntry (env : Env) (inputDir outputDir : String) (clearOutput : Bool)
    (name : String) (w : World) : World :=
  let sourcePath := srcPathOf inputDir name
  let targetPath := tgtPathOf outputDir name
  let step2 := fun (w : World) =>
    match convertDocument env sourcePath w with
    | (.error e, w) => emit (.errorEv sourcePath e) w
    | (.ok md, w) =>
      match env.writeError targetPath with
      | some e => emit (.errorEv sourcePath e) w
      | none =>
        emit (.okEv sourcePath targetPath)
          ⟨addFile targetPath md w.fs, w.events ++ [.writeFile targetPath]⟩
  if !clearOutput then
    let w := emit (.statPath targetPath) w
    match statNode w.fs targetPath with
    | some _ => emit (.skipEv targetPath) w
    | none => step2 w
  else
    step2 (doRmFile targetPath w)

/-- The `for` loop over eligible entries, in enumeration order. -/
def processEntries (env : Env) (inputDir outputDir : String) (clearOutput : Bool) :
    List String → World → World
  | [], w => w
  | n :: rest, w =>
    processEntries env inputDir outputDir clearOutput rest
      (processEntry env inputDir outputDir clearOutput n w)

/-- `convertDirectory`: optionally clear the output directory, ensure it
exists, enumerate eligible files (the `entries` parameter models the
`readdir` result), warn and return when there are none, else run the
per-file loop.  Directory-level setup is total in this model, so the only
way the source function rejects — a setup I/O failure — does not arise. -/
def convertDirectory (env : Env) (inputDir outputDir : String) (clearOutput : Bool)
    (entries : List DirEntry) (w : World) : Except String Unit × World :=
  let w := if clearOutput then doRmTree outputDir w else w
  let w := doMkdirp outputDir w
  let files := eligibleFiles entries
  if files.length == 0 then
    (.ok (), emit (.warnEv inputDir) w)
  else
    (.ok (), processEntries env inputDir outputDir clearOutput (files.map DirEntry.name) w)

/-- `main` (lines 229–246): stat the input, dispatch to single-file or
directory mode, and map any escaped error to exit code 1 after logging it;
otherwise the process exit code stays 0.  `entries` models the `readdir`
of `inputPath` used in directory mode. -/
def mainModel (env : Env) (inputPath outputPath : String) (clearOutput : Bool)
    (entries : List DirEntry) (w : World) : Nat × World :=
  match statNode w.fs inputPath with
  | some (.fileNode _) =>
    match convertSingleFile env inputPath outputPath clearOutput w with
    | (.ok _, w) => (0, w)
    | (.error e, w) => (1, emit (.errorEv inputPath e) w)
  | some .dirNode =>
    match convertDirectory env inputPath outputPath clearOutput entries w with
    | (.ok _, w) => (0, w)
    | (.error e, w) => (1, emit (.errorEv inputPath e) w)
  | none => (1, emit (.errorEv inputPath "ENOENT: no such file or directory") w)

/-! ## Concrete environments and worlds used to instantiate the theorems -/

/-- An environment in which every external collaborator succeeds. -/
def envAll : Env where
  docxToMarkdown := fun _ => .ok "MD"
  pdfExtract := fun _ => .ok "TEXT"
  soffice := fun _ => .ok ()
  sofficeOutput := fun _ => some "DOCXBYTES"
  tmpSuffix := fun _ => "t1"
  writeError := fun _ => none

/-- As `envAll`, but the DOCX adapter rejects every document. -/
def envDocxErr : Env :=
  { envAll with docxToMarkdown := fun _ => .error "broken document" }

/-- As `envAll`, but the LibreOffice subprocess exits non-zero. -/
def envSofficeErr : Env :=
  { envAll with soffice := fun _ => .error "LibreOffice conversion failed (exit code 1)" }

/-- As `envAll`, but the DOCX adapter rejects exactly one path. -/
def envMix : Env :=
  { envAll with docxToMarkdown := fun p =>
      if p == "/in/bad.docx" then .error "broken document" else .ok "# converted" }

/-- The empty world: nothing on disk, no events yet. -/
def wEmpty : World := ⟨⟨[], []⟩, []⟩

/-! ## Helper lemmas: association-list and membership reasoning -/

theorem lookup_filter_key (l : List (String × String)) (f : String → Bool) (q : String)
    (hq : f q = true) : (l.filter (fun kv => f kv.1)).lookup q = l.lookup q := by
  induction l with
  | nil => rfl
  | cons kv rest ih =>
    obtain ⟨k, v⟩ := kv
    by_cases hk : q = k
    · subst hk
      simp [List.filter_cons, hq, List.lookup]
    · have hbeq : (q == k) = false := by simp [hk]
      cases hfk : f k with
      | true => simp [List.filter_cons, hfk, List.lookup, hbeq, ih]
      | false => simp [List.filter_cons, hfk, List.lookup, hbeq, ih]

theorem lookup_filter_none (l : List (String × String)) (f : String → Bool) (q : String)
    (hq : f q = false) : (l.filter (fun kv => f kv.1)).lookup q = none := by
  induction l with
  | nil => rfl
  | cons kv rest ih =>
    obtain ⟨k, v⟩ := kv
    by_cases hk : q = k
    · subst hk
      simp [List.filter_cons, hq, ih]
    · have hbeq : (q == k) = false := by simp [hk]
      cases hfk : f k with
      | true => simp [List.filter_cons, hfk, List.lookup, hbeq, ih]
      | false => simp [List.filter_cons, hfk, ih]

theorem contains_iff_mem (l : List String) (q : String) : l.contains q = true ↔ q ∈ l := by
  simp [List.contains_iff_exists_mem_beq, beq_iff_eq]

theorem contains_filter_false (l : List String) (f : String → Bool) (q : String)
    (hq : f q = false) : (l.filter f).contains q = false := by
  rw [Bool.eq_false_iff]
  intro h
  have hm := (contains_iff_mem _ _).mp h
  have := (List.mem_filter.mp hm).2
  rw [hq] at this
  cases this

theorem contains_filter_key (l : List String) (f : String → Bool) (q : String)
    (hq : f q = true) : (l.filter f).contains q = l.contains q := by
  cases h : l.contains q with
  | true =>
    have hm := (contains_iff_mem _ _).mp h
    exact (contains_iff_mem _ _).mpr (List.mem_filter.mpr ⟨hm, hq⟩)
  | false =>
    rw [Bool.eq_false_iff] at h ⊢
    intro hc
    exact h ((contains_iff_mem _ _).mpr (List.mem_filter.mp ((contains_iff_mem _ _).mp hc)).1)

theorem contains_cons_ne (a : String) (l : List String) (q : String) (h : q ≠ a) :
    (a :: l).contains q = l.contains q := by
  cases hc : l.contains q with
  | true =>
    have := (contains_iff_mem _ _).mp hc
    exact (contains_iff_mem _ _).mpr (List.mem_cons_of_mem _ this)
  | false =>
    rw [Bool.eq_false_iff] at hc ⊢
    intro hmem
    rcases List.mem_cons.mp ((contains_iff_mem _ _).mp hmem) with h1 | h1
    · exact h h1
    · exact hc ((contains_iff_mem _ _).mpr h1)

/-! ## Helper lemmas: string prefixes -/

theorem strAppend_assoc (a b c : String) : (a ++ b) ++ c = a ++ (b ++ c) := by
  apply String.ext
  show (a.data ++ b.data) ++ c.data = a.data ++ (b.data ++ c.data)
  exact List.append_assoc _ _ _

theorem startsWith_of_append (a b : String) : startsWithStr a (a ++ b) = true := by
  have : (a ++ b).data = a.data ++ b.data := rfl
  simp [startsWithStr, this]

theorem startsWith_trans {a b c : String} (h1 : startsWithStr a b = true)
    (h2 : startsWithStr b c = true) : startsWithStr a c = true := by
  simp only [startsWithStr, List.isPrefixOf_iff_prefix] at h1 h2 ⊢
  exact h1.trans h2

/-! ## Helper lemmas: filesystem operation frames -/

theorem lookup_addFile_self (p c : String) (fs : FS) :
    lookupFile (addFile p c fs) p = some c := by
  simp [lookupFile, addFile, List.lookup]

theorem lookup_addFile_ne (p c : String) (fs : FS) (q : String) (h : q ≠ p) :
    lookupFile (addFile p c fs) q = lookupFile fs q := by
  have hbeq : (q == p) = false := by simp [h]
  simp only [lookupFile, addFile, List.lookup, hbeq]
  exact lookup_filter_key fs.files (fun k => !(k == p)) q (by simp [h])

theorem lookup_removeFile_self (p : String) (fs : FS) :
    lookupFile (removeFile p fs) p = none := by
  exact lookup_filter_none fs.files (fun k => !(k == p)) p (by simp)

theorem lookup_removeFile_ne (p : String) (fs : FS) (q : String) (h : q ≠ p) :
    lookupFile (removeFile p fs) q = lookupFile fs q := by
  exact lookup_filter_key fs.files (fun k => !(k == p)) q (by simp [h])

theorem lookup_rmTree_ne (root : String) (fs : FS) (q : String)
    (h : underPath root q = false) :
    lookupFile (rmTreeFS root fs) q = lookupFile fs q := by
  exact lookup_filter_key fs.files (fun k => !(underPath root k)) q (by simp [h])

theorem lookup_rmTree_under (root : String) (fs : FS) (q : String)
    (h : underPath root q = true) :
    lookupFile (rmTreeFS root fs) q = none := by
  exact lookup_filter_none fs.files (fun k => !(underPath root k)) q (by simp [h])

theorem files_addDir (p : String) (fs : FS) : (addDir p fs).files = fs.files := by
  unfold addDir; split <;> rfl

theorem dirs_addFile (p c : String) (fs : FS) : (addFile p c fs).dirs = fs.dirs := rfl

theorem dirs_removeFile (p : String) (fs : FS) : (removeFile p fs).dirs = fs.dirs := rfl

theorem dirs_addDir_ne (p : String) (fs : FS) (q : String) (h : q ≠ p) :
    (addDir p fs).dirs.contains q = fs.dirs.contains q := by
  unfold addDir
  split
  · rfl
  · exact contains_cons_ne p fs.dirs q h

theorem dirs_rmTree_ne (root : String) (fs : FS) (q : String)
    (h : underPath root q = false) :
    (rmTreeFS root fs).dirs.contains q = fs.dirs.contains q := by
  exact contains_filter_key fs.dirs (fun d => !(underPath root d)) q (by simp [h])

theorem dirs_rmTree_under (root : String) (fs : FS) (q : String)
    (h : underPath root q = true) :
    (rmTreeFS root fs).dirs.contains q = false := by
  exact contains_filter_false fs.dirs (fun d => !(underPath root d)) q (by simp [h])

theorem statNode_none_iff (fs : FS) (p : String) :
    statNode fs p = none ↔ (fs.dirs.contains p = false ∧ lookupFile fs p = none) := by
  unfold statNode
  cases h : fs.dirs.contains p
  · cases hl : lookupFile fs p <;> simp [h, hl]
  · simp [h]

theorem statNode_ne_none_of_lookup (fs : FS) (p : String) (c : String)
    (h : lookupFile fs p = some c) : statNode fs p ≠ none := by
  unfold statNode
  cases hd : fs.dirs.contains p <;> simp [hd, h]

/-! ## Helper lemmas: adapter effect frames -/

theorem convertDocToDocx_events (env : Env) (p : String) (w : World) :
    ∃ t, (convertDocToDocx env p w).2.events = w.events ++ t := by
  unfold convertDocToDocx
  split
  · exact ⟨_, rfl⟩
  · split
    · dsimp only
      split
      · exact ⟨_, rfl⟩
      · exact ⟨_, rfl⟩
    · dsimp only
      split
      · exact ⟨_, rfl⟩
      · exact ⟨_, rfl⟩

theorem lookup_addDir (p : String) (fs : FS) (q : String) :
    lookupFile (addDir p fs) q = lookupFile fs q := by
  unfold lookupFile
  rw [files_addDir]

theorem ne_of_not_starts {q a b : String} (hq : startsWithStr a q = false)
    (hb : startsWithStr a b = true) : q ≠ b := by
  intro h
  rw [h, hb] at hq
  cases hq

theorem startsWith_append_of_starts {a b : String} (c : String)
    (h : startsWithStr a b = true) : startsWithStr a (b ++ c) = true :=
  startsWith_trans h (startsWith_of_append b c)

theorem underPath_false_of_not_starts {a q root : String}
    (hq : startsWithStr a q = false) (hr : startsWithStr a root = true) :
    underPath root q = false := by
  unfold underPath
  have h1 : (q == root) = false := by simp [ne_of_not_starts hq hr]
  have h2 : startsWithStr (root ++ "/") q = false := by
    cases hc : startsWithStr (root ++ "/") q
    · rfl
    · exfalso
      have := startsWith_trans (startsWith_append_of_starts "/" hr) hc
      rw [hq] at this
      cases this
  rw [h1, h2]
  rfl

theorem convertDocToDocx_shape (env : Env) (p : String) (w : World) (art : TempArtifact)
    (h : (convertDocToDocx env p w).1 = .ok art) :
    art.tempDir = "/tmp/input-docx-" ++ env.tmpSuffix p ∧
    art.docxPath = ("/tmp/input-docx-" ++ env.tmpSuffix p) ++ "/" ++
      (basenameDrop (basename p) (extname p) ++ ".docx") := by
  unfold convertDocToDocx at h
  split at h
  · cases h
  · dsimp only at h
    split at h
    · cases h
    · injection h with h
      subst h
      exact ⟨rfl, rfl⟩

theorem convertDocToDocx_frame (env : Env) (p : String) (w : World) (q : String)
    (hq : startsWithStr "/tmp/input-docx-" q = false) :
    lookupFile (convertDocToDocx env p w).2.fs q = lookupFile w.fs q ∧
    (convertDocToDocx env p w).2.fs.dirs.contains q = w.fs.dirs.contains q := by
  have hT : startsWithStr "/tmp/input-docx-" ("/tmp/input-docx-" ++ env.tmpSuffix p) = true :=
    startsWith_of_append _ _
  have hqT : q ≠ "/tmp/input-docx-" ++ env.tmpSuffix p := ne_of_not_starts hq hT
  have hD : startsWithStr "/tmp/input-docx-"
      (("/tmp/input-docx-" ++ env.tmpSuffix p) ++ "/" ++
        (basenameDrop (basename p) (extname p) ++ ".docx")) = true :=
    startsWith_append_of_starts _ (startsWith_append_of_starts _ hT)
  have hqD : q ≠ ("/tmp/input-docx-" ++ env.tmpSuffix p) ++ "/" ++
      (basenameDrop (basename p) (extname p) ++ ".docx") := ne_of_not_starts hq hD
  unfold convertDocToDocx
  split
  · exact ⟨lookup_addDir _ _ _, dirs_addDir_ne _ _ _ hqT⟩
  · split
    · dsimp only
      split
      · constructor
        · rw [lookup_addFile_ne _ _ _ _ hqD, lookup_addDir]
        · rw [show (addFile _ _ _).dirs = (addDir ("/tmp/input-docx-" ++ env.tmpSuffix p) w.fs).dirs from rfl]
          exact dirs_addDir_ne _ _ _ hqT
      · constructor
        · rw [lookup_addFile_ne _ _ _ _ hqD, lookup_addDir]
        · rw [show (addFile _ _ _).dirs = (addDir ("/tmp/input-docx-" ++ env.tmpSuffix p) w.fs).dirs from rfl]
          exact dirs_addDir_ne _ _ _ hqT
    · dsimp only
      split
      · exact ⟨lookup_addDir _ _ _, dirs_addDir_ne _ _ _ hqT⟩
      · exact ⟨lookup_addDir _ _ _, dirs_addDir_ne _ _ _ hqT⟩

theorem convertDocument_events (env : Env) (p : String) (w : World) :
    ∃ t, (convertDocument env p w).2.events = w.events ++ [Event.adapterCall p] ++ t := by
  unfold convertDocument
  dsimp only
  split
  · exact ⟨[], by simp [emit]⟩
  · split
    · rcases h : convertDocToDocx env p (emit (.adapterCall p) w) with ⟨r, w'⟩
      obtain ⟨t, ht⟩ := convertDocToDocx_events env p (emit (.adapterCall p) w)
      rw [h] at ht
      cases r with
      | error e =>
        refine ⟨t, ?_⟩
        simpa [emit] using ht
      | ok art =>
        refine ⟨t ++ [Event.rmTreeEv art.tempDir], ?_⟩
        simp only [doRmTree]
        simp only at ht
        simp [ht, emit]
    · split
      · split
        · exact ⟨[], by simp [emit]⟩
        · split
          · exact ⟨[], by simp [emit]⟩
          · exact ⟨[], by simp [emit]⟩
      · exact ⟨[], by simp [emit]⟩

theorem convertDocument_frame (env : Env) (p : String) (w : World) (q : String)
    (hq : startsWithStr "/tmp/input-docx-" q = false) :
    lookupFile (convertDocument env p w).2.fs q = lookupFile w.fs q ∧
    (convertDocument env p w).2.fs.dirs.contains q = w.fs.dirs.contains q := by
  unfold convertDocument
  dsimp only
  split
  · exact ⟨rfl, rfl⟩
  · split
    · rcases h : convertDocToDocx env p (emit (.adapterCall p) w) with ⟨r, w'⟩
      have hfr := convertDocToDocx_frame env p (emit (.adapterCall p) w) q hq
      rw [h] at hfr
      cases r with
      | error e => exact hfr
      | ok art =>
        have hshape := convertDocToDocx_shape env p (emit (.adapterCall p) w) art (by rw [h])
        have hroot : startsWithStr "/tmp/input-docx-" art.tempDir = true := by
          rw [hshape.1]
          exact startsWith_of_append _ _
        have hup : underPath art.tempDir q = false :=
          underPath_false_of_not_starts hq hroot
        constructor
        · simp only [doRmTree]
          rw [lookup_rmTree_ne _ _ _ hup]
          exact hfr.1
        · simp only [doRmTree]
          rw [dirs_rmTree_ne _ _ _ hup]
          exact hfr.2
    · split
      · split
        · exact ⟨rfl, rfl⟩
        · split
          · exact ⟨rfl, rfl⟩
          · exact ⟨rfl, rfl⟩
      · exact ⟨rfl, rfl⟩

/-! ## Helper lemmas: the directory loop body -/

theorem processEntry_events (env : Env) (inDir outDir : String) (co : Bool)
    (name : String) (w : World) :
    ∃ t, (processEntry env inDir outDir co name w).events = w.events ++ t := by
  unfold processEntry
  dsimp only
  split
  · split
    · exact ⟨[Event.statPath (tgtPathOf outDir name), Event.skipEv (tgtPathOf outDir name)],
        by simp [emit]⟩
    · rcases h : convertDocument env (srcPathOf inDir name)
        (emit (.statPath (tgtPathOf outDir name)) w) with ⟨r, w2⟩
      obtain ⟨t, ht⟩ := convertDocument_events env (srcPathOf inDir name)
        (emit (.statPath (tgtPathOf outDir name)) w)
      rw [h] at ht
      simp only [emit] at ht
      cases r with
      | error e =>
        dsimp only
        exact ⟨[Event.statPath (tgtPathOf outDir name),
            Event.adapterCall (srcPathOf inDir name)] ++ t ++
            [Event.errorEv (srcPathOf inDir name) e], by simp [emit, ht]⟩
      | ok md =>
        dsimp only
        split
        · next e _ =>
          exact ⟨[Event.statPath (tgtPathOf outDir name),
              Event.adapterCall (srcPathOf inDir name)] ++ t ++
              [Event.errorEv (srcPathOf inDir name) e], by simp [emit, ht]⟩
        · exact ⟨[Event.statPath (tgtPathOf outDir name),
              Event.adapterCall (srcPathOf inDir name)] ++ t ++
              [Event.writeFile (tgtPathOf outDir name),
               Event.okEv (srcPathOf inDir name) (tgtPathOf outDir name)],
            by simp [emit, ht]⟩
  · rcases h : convertDocument env (srcPathOf inDir name)
      (doRmFile (tgtPathOf outDir name) w) with ⟨r, w2⟩
    obtain ⟨t, ht⟩ := convertDocument_events env (srcPathOf inDir name)
      (doRmFile (tgtPathOf outDir name) w)
    rw [h] at ht
    simp only [doRmFile] at ht
    cases r with
    | error e =>
      dsimp only
      exact ⟨[Event.rmFileEv (tgtPathOf outDir name),
          Event.adapterCall (srcPathOf inDir name)] ++ t ++
          [Event.errorEv (srcPathOf inDir name) e], by simp [emit, ht]⟩
    | ok md =>
      dsimp only
      split
      · next e _ =>
        exact ⟨[Event.rmFileEv (tgtPathOf outDir name),
            Event.adapterCall (srcPathOf inDir name)] ++ t ++
            [Event.errorEv (srcPathOf inDir name) e], by simp [emit, ht]⟩
      · exact ⟨[Event.rmFileEv (tgtPathOf outDir name),
            Event.adapterCall (srcPathOf inDir name)] ++ t ++
            [Event.writeFile (tgtPathOf outDir name),
             Event.okEv (srcPathOf inDir name) (tgtPathOf outDir name)],
          by simp [emit, ht]⟩

theorem processEntry_files_frame (env : Env) (inDir outDir : String) (co : Bool)
    (name : String) (w : World) (q : String)
    (hq : startsWithStr "/tmp/input-docx-" q = false)
    (hqt : q ≠ tgtPathOf outDir name) :
    lookupFile (processEntry env inDir outDir co name w).fs q = lookupFile w.fs q := by
  unfold processEntry
  dsimp only
  split
  · split
    · rfl
    · rcases h : convertDocument env (srcPathOf inDir name)
        (emit (.statPath (tgtPathOf outDir name)) w) with ⟨r, w2⟩
      have hfr := (convertDocument_frame env (srcPathOf inDir name)
        (emit (.statPath (tgtPathOf outDir name)) w) q hq).1
      rw [h] at hfr
      cases r with
      | error e => exact hfr
      | ok md =>
        dsimp only
        split
        · exact hfr
        · show lookupFile (addFile (tgtPathOf outDir name) md w2.fs) q = lookupFile w.fs q
          rw [lookup_addFile_ne _ _ _ _ hqt]
          exact hfr
  · rcases h : convertDocument env (srcPathOf inDir name)
      (doRmFile (tgtPathOf outDir name) w) with ⟨r, w2⟩
    have hfr := (convertDocument_frame env (srcPathOf inDir name)
      (doRmFile (tgtPathOf outDir name) w) q hq).1
    rw [h] at hfr
    have hrm : lookupFile (doRmFile (tgtPathOf outDir name) w).fs q = lookupFile w.fs q :=
      lookup_removeFile_ne _ _ _ hqt
    rw [hrm] at hfr
    cases r with
    | error e => exact hfr
    | ok md =>
      dsimp only
      split
      · exact hfr
      · show lookupFile (addFile (tgtPathOf outDir name) md w2.fs) q = lookupFile w.fs q
        rw [lookup_addFile_ne _ _ _ _ hqt]
        exact hfr

theorem processEntry_dirs_frame (env : Env) (inDir outDir : String) (co : Bool)
    (name : String) (w : World) (q : String)
    (hq : startsWithStr "/tmp/input-docx-" q = false) :
    (processEntry env inDir outDir co name w).fs.dirs.contains q =
      w.fs.dirs.contains q := by
  unfold processEntry
  dsimp only
  split
  · split
    · rfl
    · rcases h : convertDocument env (srcPathOf inDir name)
        (emit (.statPath (tgtPathOf outDir name)) w) with ⟨r, w2⟩
      have hfr := (convertDocument_frame env (srcPathOf inDir name)
        (emit (.statPath (tgtPathOf outDir name)) w) q hq).2
      rw [h] at hfr
      cases r with
      | error e => exact hfr
      | ok md =>
        dsimp only
        split
        · exact hfr
        · exact hfr
  · rcases h : convertDocument env (srcPathOf inDir name)
      (doRmFile (tgtPathOf outDir name) w) with ⟨r, w2⟩
    have hfr := (convertDocument_frame env (srcPathOf inDir name)
      (doRmFile (tgtPathOf outDir name) w) q hq).2
    rw [h] at hfr
    cases r with
    | error e => exact hfr
    | ok md =>
      dsimp only
      split
      · exact hfr
      · exact hfr

theorem processEntry_writes (env : Env) (inDir outDir : String) (co : Bool)
    (name : String) (w : World) (md : String)
    (hconv : ∀ w', (convertDocument env (srcPathOf inDir name) w').1 = .ok md)
    (hwe : env.writeError (tgtPathOf outDir name) = none)
    (hstat : statNode w.fs (tgtPathOf outDir name) = none) :
    lookupFile (processEntry env inDir outDir co name w).fs (tgtPathOf outDir name) =
      some md := by
  unfold processEntry
  dsimp only
  split
  · split
    · next heq =>
      simp only [emit] at heq
      rw [hstat] at heq
      cases heq
    · rcases h : convertDocument env (srcPathOf inDir name)
        (emit (.statPath (tgtPathOf outDir name)) w) with ⟨r, w2⟩
      have hr : r = .ok md := by
        have := hconv (emit (.statPath (tgtPathOf outDir name)) w)
        rw [h] at this
        exact this
      subst hr
      dsimp only
      rw [hwe]
      exact lookup_addFile_self _ _ _
  · rcases h : convertDocument env (srcPathOf inDir name)
      (doRmFile (tgtPathOf outDir name) w) with ⟨r, w2⟩
    have hr : r = .ok md := by
      have := hconv (doRmFile (tgtPathOf outDir name) w)
      rw [h] at this
      exact this
    subst hr
    dsimp only
    rw [hwe]
    exact lookup_addFile_self _ _ _

theorem processEntry_keeps (env : Env) (inDir outDir : String) (co : Bool)
    (name : String) (w : World) (md : String)
    (hconv : ∀ w', (convertDocument env (srcPathOf inDir name) w').1 = .ok md)
    (hwe : env.writeError (tgtPathOf outDir name) = none)
    (hsome : lookupFile w.fs (tgtPathOf outDir name) = some md) :
    lookupFile (processEntry env inDir outDir co name w).fs (tgtPathOf outDir name) =
      some md := by
  unfold processEntry
  dsimp only
  split
  · split
    · exact hsome
    · next heq =>
      simp only [emit] at heq
      have := (statNode_none_iff _ _).mp heq
      rw [this.2] at hsome
      cases hsome
  · rcases h : convertDocument env (srcPathOf inDir name)
      (doRmFile (tgtPathOf outDir name) w) with ⟨r, w2⟩
    have hr : r = .ok md := by
      have := hconv (doRmFile (tgtPathOf outDir name) w)
      rw [h] at this
      exact this
    subst hr
    dsimp only
    rw [hwe]
    exact lookup_addFile_self _ _ _

theorem processEntry_skip (env : Env) (inDir outDir : String)
    (name : String) (w : World)
    (hstat : statNode w.fs (tgtPathOf outDir name) ≠ none) :
    processEntry env inDir outDir false name w =
      ⟨w.fs, w.events ++ [Event.statPath (tgtPathOf outDir name),
        Event.skipEv (tgtPathOf outDir name)]⟩ := by
  unfold processEntry
  dsimp only
  split
  · split
    · simp [emit]
    · next heq =>
      simp only [emit] at heq
      exact absurd heq hstat
  · next hco => simp at hco

theorem processEntry_resolution (env : Env) (inDir outDir : String) (co : Bool)
    (name : String) (w : World) :
    (∃ m, Event.errorEv (srcPathOf inDir name) m ∈
        (processEntry env inDir outDir co name w).events) ∨
    Event.skipEv (tgtPathOf outDir name) ∈
        (processEntry env inDir outDir co name w).events ∨
    Event.writeFile (tgtPathOf outDir name) ∈
        (processEntry env inDir outDir co name w).events := by
  unfold processEntry
  dsimp only
  split
  · split
    · right; left; simp [emit]
    · rcases h : convertDocument env (srcPathOf inDir name)
        (emit (.statPath (tgtPathOf outDir name)) w) with ⟨r, w2⟩
      cases r with
      | error e => left; exact ⟨e, by simp [emit]⟩
      | ok md =>
        dsimp only
        split
        · next e _ => left; exact ⟨e, by simp [emit]⟩
        · right; right; simp [emit]
  · rcases h : convertDocument env (srcPathOf inDir name)
      (doRmFile (tgtPathOf outDir name) w) with ⟨r, w2⟩
    cases r with
    | error e => left; exact ⟨e, by simp [emit]⟩
    | ok md =>
      dsimp only
      split
      · next e _ => left; exact ⟨e, by simp [emit]⟩
      · right; right; simp [emit]

/-! ## Helper lemmas: the directory loop -/

theorem processEntries_events (env : Env) (inDir outDir : String) (co : Bool)
    (names : List String) :
    ∀ w : World, ∃ t, (processEntries env inDir outDir co names w).events =
      w.events ++ t := by
  induction names with
  | nil => intro w; exact ⟨[], by simp [processEntries]⟩
  | cons n rest ih =>
    intro w
    obtain ⟨t1, h1⟩ := processEntry_events env inDir outDir co n w
    obtain ⟨t2, h2⟩ := ih (processEntry env inDir outDir co n w)
    exact ⟨t1 ++ t2, by simp [processEntries, h2, h1]⟩

theorem processEntries_resolution (env : Env) (inDir outDir : String) (co : Bool)
    (names : List String) :
    ∀ (w : World) (n : String), n ∈ names →
    ((∃ m, Event.errorEv (srcPathOf inDir n) m ∈
        (processEntries env inDir outDir co names w).events) ∨
     Event.skipEv (tgtPathOf outDir n) ∈
        (processEntries env inDir outDir co names w).events ∨
     Event.writeFile (tgtPathOf outDir n) ∈
        (processEntries env inDir outDir co names w).events) := by
  induction names with
  | nil => intro w n hn; cases hn
  | cons a rest ih =>
    intro w n hn
    simp only [processEntries]
    rcases List.mem_cons.mp hn with h | h
    · subst h
      obtain ⟨t, ht⟩ := processEntries_events env inDir outDir co rest
        (processEntry env inDir outDir co n w)
      rw [ht]
      rcases processEntry_resolution env inDir outDir co n w with ⟨m, hm⟩ | hm | hm
      · exact Or.inl ⟨m, List.mem_append_left _ hm⟩
      · exact Or.inr (Or.inl (List.mem_append_left _ hm))
      · exact Or.inr (Or.inr (List.mem_append_left _ hm))
    · exact ih (processEntry env inDir outDir co a w) n h

theorem processEntries_preserve (env : Env) (inDir outDir : String) (co : Bool)
    (tgt md name : String)
    (htgt : startsWithStr "/tmp/input-docx-" tgt = false)
    (hconv : ∀ w', (convertDocument env (srcPathOf inDir name) w').1 = .ok md)
    (hwe : env.writeError tgt = none) :
    ∀ (names : List String), (∀ n ∈ names, tgtPathOf outDir n = tgt → n = name) →
    ∀ w : World, lookupFile w.fs tgt = some md →
    lookupFile (processEntries env inDir outDir co names w).fs tgt = some md := by
  intro names
  induction names with
  | nil => intro _ w hw; exact hw
  | cons a rest ih =>
    intro hcase w hw
    simp only [processEntries]
    have hrest : ∀ n ∈ rest, tgtPathOf outDir n = tgt → n = name := by
      intro n hn
      exact hcase n (List.mem_cons_of_mem _ hn)
    by_cases ha : tgtPathOf outDir a = tgt
    · have haname : a = name := hcase a (List.mem_cons_self _ _) ha
      subst haname
      refine ih hrest (processEntry env inDir outDir co a w) ?_
      rw [← ha] at hw ⊢
      exact processEntry_keeps env inDir outDir co a w md hconv
        (by rw [ha]; exact hwe) hw
    · refine ih hrest (processEntry env inDir outDir co a w) ?_
      rw [processEntry_files_frame env inDir outDir co a w tgt htgt
        (fun h => ha h.symm)]
      exact hw

theorem processEntries_establish (env : Env) (inDir outDir : String) (co : Bool)
    (tgt md name : String)
    (htgt : startsWithStr "/tmp/input-docx-" tgt = false)
    (hconv : ∀ w', (convertDocument env (srcPathOf inDir name) w').1 = .ok md)
    (hwe : env.writeError tgt = none)
    (heq : tgtPathOf outDir name = tgt) :
    ∀ (names : List String), name ∈ names →
    (∀ n ∈ names, tgtPathOf outDir n = tgt → n = name) →
    ∀ w : World, statNode w.fs tgt = none →
    lookupFile (processEntries env inDir outDir co names w).fs tgt = some md := by
  intro names
  induction names with
  | nil => intro h; cases h
  | cons a rest ih =>
    intro hname hcase w hstat
    simp only [processEntries]
    have hrest : ∀ n ∈ rest, tgtPathOf outDir n = tgt → n = name := by
      intro n hn
      exact hcase n (List.mem_cons_of_mem _ hn)
    by_cases haeq : a = name
    · subst haeq
      refine processEntries_preserve env inDir outDir co tgt md a htgt hconv hwe
        rest hrest _ ?_
      rw [← heq] at hstat ⊢
      exact processEntry_writes env inDir outDir co a w md hconv
        (by rw [heq]; exact hwe) hstat
    · have hname' : name ∈ rest := by
        rcases List.mem_cons.mp hname with h | h
        · exact absurd h.symm haeq
        · exact h
      have hat : tgtPathOf outDir a ≠ tgt := by
        intro hc
        exact haeq (hcase a (List.mem_cons_self _ _) hc)
      obtain ⟨hd, hl⟩ := (statNode_none_iff _ _).mp hstat
      refine ih hname' hrest (processEntry env inDir outDir co a w) ?_
      refine (statNode_none_iff _ _).mpr ⟨?_, ?_⟩
      · rw [processEntry_dirs_frame env inDir outDir co a w tgt htgt]
        exact hd
      · rw [processEntry_files_frame env inDir outDir co a w tgt htgt
          (fun h => hat h.symm)]
        exact hl

theorem processEntries_skipAll (env : Env) (inDir outDir : String)
    (names : List String) :
    ∀ w : World, (∀ n ∈ names, statNode w.fs (tgtPathOf outDir n) ≠ none) →
    (processEntries env inDir outDir false names w).fs = w.fs ∧
    ∃ t, (processEntries env inDir outDir false names w).events = w.events ++ t ∧
      ∀ e ∈ t, (∃ p, e = Event.statPath p) ∨ (∃ p, e = Event.skipEv p) := by
  induction names with
  | nil =>
    intro w _
    exact ⟨rfl, [], by simp [processEntries], by intro e he; cases he⟩
  | cons a rest ih =>
    intro w hall
    simp only [processEntries]
    have hskip := processEntry_skip env inDir outDir a w
      (hall a (List.mem_cons_self _ _))
    rw [hskip]
    have hall' : ∀ n ∈ rest,
        statNode (⟨w.fs, w.events ++ [Event.statPath (tgtPathOf outDir a),
          Event.skipEv (tgtPathOf outDir a)]⟩ : World).fs (tgtPathOf outDir n) ≠ none := by
      intro n hn
      exact hall n (List.mem_cons_of_mem _ hn)
    obtain ⟨hfs, t, ht, hshape⟩ := ih _ hall'
    refine ⟨hfs, [Event.statPath (tgtPathOf outDir a),
      Event.skipEv (tgtPathOf outDir a)] ++ t, ?_, ?_⟩
    · rw [ht]
      simp
    · intro e he
      rcases List.mem_append.mp he with h | h
      · rcases List.mem_cons.mp h with h | h
        · exact Or.inl ⟨_, h⟩
        · rcases List.mem_cons.mp h with h | h
          · exact Or.inr ⟨_, h⟩
          · cases h
      · exact hshape e h

/-! ## Directory-level and entry-point lemmas -/

theorem convertDirectory_ok (env : Env) (inDir outDir : String) (co : Bool)
    (entries : List DirEntry) (w : World) :
    (convertDirectory env inDir outDir co entries w).1 = .ok () := by
  unfold convertDirectory
  dsimp only
  split <;> rfl

theorem dirExitZero (env : Env) (inP outP : String) (co : Bool)
    (entries : List DirEntry) (w : World) (h : statNode w.fs inP = some .dirNode) :
    (mainModel env inP outP co entries w).1 = 0 := by
  unfold mainModel
  rw [h]
  rcases hc : convertDirectory env inP outP co entries w with ⟨r, w'⟩
  have hok := convertDirectory_ok env inP outP co entries w
  rw [hc] at hok
  subst hok
  rfl

theorem strLength_pos_of_ne_empty {s : String} (h : s ≠ "") : 0 < s.length := by
  cases s with
  | mk data =>
    cases data with
    | nil => exact absurd rfl h
    | cons c cs => simp [String.length]

/-! ## Claim theorems -/

/-- C3: the format gate accepts a path exactly when its extension is one of
the six literal strings `.docx`, `.DOCX`, `.doc`, `.DOC`, `.pdf`, `.PDF`;
mixed-case `.Docx`, `.txt` and extensionless paths are rejected; a rejected
path is an error in single-file mode and is excluded from the enumeration in
directory mode. -/
theorem claim_C3_format_gate :
    supportedExtensions = [".docx", ".DOCX", ".doc", ".DOC", ".pdf", ".PDF"] ∧
    (∀ p : String, gateAccepts p = true ↔ extname p ∈ supportedExtensions) ∧
    gateAccepts "a.Docx" = false ∧
    gateAccepts "report.txt" = false ∧
    gateAccepts "noext" = false ∧
    (∀ (env : Env) (p outP : String) (co : Bool) (w : World),
      gateAccepts p = false →
      convertSingleFile env p outP co w =
        (.error ("Unsupported input file: " ++ p), w)) ∧
    (∀ (entries : List DirEntry) (e : DirEntry),
      e ∈ eligibleFiles entries ↔
        (e ∈ entries ∧ e.isFile = true ∧ gateAccepts e.name = true)) := by
  refine ⟨rfl, ?_, by decide, by decide, by decide, ?_, ?_⟩
  · intro p
    exact contains_iff_mem supportedExtensions (extname p)
  · intro env p outP co w h
    unfold gateAccepts at h
    unfold convertSingleFile
    rw [h]
    rfl
  · intro entries e
    simp [eligibleFiles, List.mem_filter, Bool.and_eq_true, gateAccepts]

/-- Instantiation of C3 at concrete inputs. -/
theorem claim_C3_format_gate_witness :
    gateAccepts "a.docx" = true ∧
    convertSingleFile envAll "b.txt" "o.md" false wEmpty =
      (.error "Unsupported input file: b.txt", wEmpty) := by
  constructor
  · exact (claim_C3_format_gate.2.1 "a.docx").mpr (by decide)
  · exact claim_C3_format_gate.2.2.2.2.2.1 envAll "b.txt" "o.md" false wEmpty (by decide)

/-- C5: the PDF reformatting splits the extracted text on newlines, drops
blank and whitespace-only lines, trims each remaining line and joins with a
blank line; on `"Line A\n\n  \nLine B  \n"` it yields `"Line A\n\nLine B"`. -/
theorem claim_C5_pdf_reformat :
    (∀ text : String, pdfTextToMarkdown text =
      joinWith "\n\n"
        (((splitStr '\n' text).filter (fun l => !(jsTrim l == ""))).map jsTrim)) ∧
    pdfTextToMarkdown "Line A\n\n  \nLine B  \n" = "Line A\n\nLine B" := by
  constructor
  · intro text
    unfold pdfTextToMarkdown
    dsimp only
    have hfix : List.filter ((fun l => decide (0 < l.length)) ∘ jsTrim)
        ((splitStr '\n' text).filter (fun l => !(jsTrim l == ""))) =
        (splitStr '\n' text).filter (fun l => !(jsTrim l == "")) := by
      apply List.filter_eq_self.mpr
      intro a ha
      have hne : jsTrim a ≠ "" := by
        have := (List.mem_filter.mp ha).2
        simp only [Bool.not_eq_true'] at this
        exact fun hc => by
          rw [hc] at this
          simp at this
      simp only [Function.comp]
      exact decide_eq_true (strLength_pos_of_ne_empty hne)
    rw [List.filter_map, hfix]
  · decide

/-- C9: lowercasing any member of the supported-extension set yields
`.docx`, `.doc` or `.pdf`, so for every path passing the format gate one of
the three earlier dispatch branches of `convertDocument` fires and its
"Unsupported file type" branch is unreachable. -/
theorem claim_C9_unsupported_unreachable :
    (∀ e ∈ supportedExtensions,
      strToLower e = ".docx" ∨ strToLower e = ".doc" ∨ strToLower e = ".pdf") ∧
    (∀ p : String, gateAccepts p = true →
      strToLower (extname p) = ".docx" ∨ strToLower (extname p) = ".doc" ∨
        strToLower (extname p) = ".pdf") := by
  have hmem : ∀ e ∈ supportedExtensions,
      strToLower e = ".docx" ∨ strToLower e = ".doc" ∨ strToLower e = ".pdf" := by
    intro e he
    simp only [supportedExtensions, List.mem_cons, List.not_mem_nil, or_false] at he
    rcases he with rfl | rfl | rfl | rfl | rfl | rfl
    · left; decide
    · left; decide
    · right; left; decide
    · right; left; decide
    · right; right; decide
    · right; right; decide
  refine ⟨hmem, ?_⟩
  intro p hp
  exact hmem (extname p) ((contains_iff_mem _ _).mp hp)

/-- Instantiation of C9 at a concrete accepted path. -/
theorem claim_C9_unsupported_unreachable_witness :
    gateAccepts "x.PDF" = true ∧
    (strToLower (extname "x.PDF") = ".docx" ∨ strToLower (extname "x.PDF") = ".doc" ∨
      strToLower (extname "x.PDF") = ".pdf") := by
  refine ⟨by decide, ?_⟩
  exact claim_C9_unsupported_unreachable.2 "x.PDF" (by decide)

theorem contains_addDir_self (p : String) (fs : FS) :
    (addDir p fs).dirs.contains p = true := by
  unfold addDir
  split
  · next h => exact h
  · exact (contains_iff_mem _ _).mpr (List.mem_cons_self _ _)

theorem contains_addDir_true (p : String) (fs : FS) (q : String)
    (h : fs.dirs.contains q = true) : (addDir p fs).dirs.contains q = true := by
  unfold addDir
  split
  · exact h
  · exact (contains_iff_mem _ _).mpr
      (List.mem_cons_of_mem _ ((contains_iff_mem _ _).mp h))

theorem convertAndWriteSingle_events (env : Env) (inP outP : String) (w : World) :
    ∃ t, (convertAndWriteSingle env inP outP w).2.events = w.events ++ t := by
  unfold convertAndWriteSingle
  rcases h : convertDocument env inP w with ⟨r, w2⟩
  obtain ⟨t, ht⟩ := convertDocument_events env inP w
  rw [h] at ht
  simp only at ht
  cases r with
  | error e => exact ⟨[Event.adapterCall inP] ++ t, by simp [ht]⟩
  | ok md =>
    dsimp only
    split
    · exact ⟨[Event.adapterCall inP] ++ t, by simp [ht]⟩
    · exact ⟨[Event.adapterCall inP] ++ t ++
        [Event.writeFile outP, Event.okEv inP outP], by simp [emit, ht]⟩

theorem convertAndWriteSingle_dirs_frame (env : Env) (inP outP : String) (w : World)
    (q : String) (hq : startsWithStr "/tmp/input-docx-" q = false) :
    (convertAndWriteSingle env inP outP w).2.fs.dirs.contains q =
      w.fs.dirs.contains q := by
  unfold convertAndWriteSingle
  rcases h : convertDocument env inP w with ⟨r, w2⟩
  have hfr := (convertDocument_frame env inP w q hq).2
  rw [h] at hfr
  cases r with
  | error e => exact hfr
  | ok md =>
    dsimp only
    split
    · exact hfr
    · exact hfr

/-- C6: in single-file mode, when the output path exists and is a directory,
the run fails with the output-conflict error regardless of `clearOutput`, no
file is written anywhere, and the adapter is never invoked. -/
theorem claim_C6_output_dir_conflict (env : Env) (inP outP : String) (co : Bool)
    (fs : FS) (hgate : gateAccepts inP = true)
    (hdir : fs.dirs.contains outP = true) :
    (convertSingleFile env inP outP co ⟨fs, []⟩).1 =
      .error "Output path points to a directory but a file was expected" ∧
    (convertSingleFile env inP outP co ⟨fs, []⟩).2.fs.files = fs.files ∧
    (∀ q, Event.adapterCall q ∉ (convertSingleFile env inP outP co ⟨fs, []⟩).2.events) ∧
    (∀ q, Event.writeFile q ∉ (convertSingleFile env inP outP co ⟨fs, []⟩).2.events) := by
  unfold gateAccepts at hgate
  have hstat : statNode (emit (Event.statPath outP)
      (doMkdirp (dirname outP) ⟨fs, []⟩)).fs outP = some .dirNode := by
    simp only [emit, doMkdirp]
    unfold statNode
    rw [contains_addDir_true (dirname outP) fs outP hdir]
    simp
  unfold convertSingleFile
  rw [hgate]
  simp only [Bool.not_true, Bool.false_eq_true, if_false, hstat]
  refine ⟨by trivial, ?_, ?_, ?_⟩
  · simp [emit, doMkdirp, files_addDir]
  · intro q
    simp [emit, doMkdirp]
  · intro q
    simp [emit, doMkdirp]

/-- Instantiation of C6: converting onto an existing directory `/out`. -/
theorem claim_C6_output_dir_conflict_witness :
    (convertSingleFile envAll "/in/a.docx" "/out" false ⟨⟨[], ["/out"]⟩, []⟩).1 =
      .error "Output path points to a directory but a file was expected" ∧
    (convertSingleFile envAll "/in/a.docx" "/out" false ⟨⟨[], ["/out"]⟩, []⟩).2.fs.files = [] ∧
    Event.adapterCall "/in/a.docx" ∉
      (convertSingleFile envAll "/in/a.docx" "/out" false ⟨⟨[], ["/out"]⟩, []⟩).2.events ∧
    Event.writeFile "/out" ∉
      (convertSingleFile envAll "/in/a.docx" "/out" false ⟨⟨[], ["/out"]⟩, []⟩).2.events := by
  have h := claim_C6_output_dir_conflict envAll "/in/a.docx" "/out" false
    ⟨[], ["/out"]⟩ (by decide) (by decide)
  exact ⟨h.1, h.2.1, h.2.2.1 "/in/a.docx", h.2.2.2 "/out"⟩

/-- C7: a directory run over zero eligible files warns, returns successfully
(exit code 0), writes no output file, never invokes the adapter, and still
ensures the output directory exists. -/
theorem claim_C7_empty_directory (env : Env) (inDir outDir : String) (co : Bool)
    (entries : List DirEntry) (fs : FS)
    (hempty : eligibleFiles entries = []) :
    (convertDirectory env inDir outDir co entries ⟨fs, []⟩).1 = .ok () ∧
    Event.warnEv inDir ∈ (convertDirectory env inDir outDir co entries ⟨fs, []⟩).2.events ∧
    (∀ q, Event.writeFile q ∉
      (convertDirectory env inDir outDir co entries ⟨fs, []⟩).2.events) ∧
    (∀ q, Event.adapterCall q ∉
      (convertDirectory env inDir outDir co entries ⟨fs, []⟩).2.events) ∧
    (convertDirectory env inDir outDir co entries ⟨fs, []⟩).2.fs.dirs.contains outDir =
      true ∧
    (statNode fs inDir = some .dirNode →
      (mainModel env inDir outDir co entries ⟨fs, []⟩).1 = 0) := by
  unfold convertDirectory
  rw [hempty]
  cases co with
  | false =>
    refine ⟨rfl, by simp [emit, doMkdirp], ?_, ?_, ?_, ?_⟩
    · intro q
      simp [emit, doMkdirp]
    · intro q
      simp [emit, doMkdirp]
    · simp only [emit, doMkdirp]
      exact contains_addDir_self outDir (World.mk fs []).fs
    · intro h
      exact dirExitZero env inDir outDir false entries ⟨fs, []⟩ h
  | true =>
    refine ⟨rfl, by simp [emit, doMkdirp, doRmTree], ?_, ?_, ?_, ?_⟩
    · intro q
      simp [emit, doMkdirp, doRmTree]
    · intro q
      simp [emit, doMkdirp, doRmTree]
    · simp only [emit, doMkdirp, doRmTree]
      exact contains_addDir_self outDir _
    · intro h
      exact dirExitZero env inDir outDir true entries ⟨fs, []⟩ h

/-- Instantiation of C7: a directory containing only an ineligible file. -/
theorem claim_C7_empty_directory_witness :
    (convertDirectory envAll "/in" "/out" false [DirEntry.mk "notes.txt" true] wEmpty).1 =
      .ok () ∧
    Event.warnEv "/in" ∈
      (convertDirectory envAll "/in" "/out" false [DirEntry.mk "notes.txt" true] wEmpty).2.events ∧
    Event.writeFile "/out/notes.md" ∉
      (convertDirectory envAll "/in" "/out" false [DirEntry.mk "notes.txt" true] wEmpty).2.events ∧
    (convertDirectory envAll "/in" "/out" false [DirEntry.mk "notes.txt" true]
      wEmpty).2.fs.dirs.contains "/out" = true := by
  have h := claim_C7_empty_directory envAll "/in" "/out" false [DirEntry.mk "notes.txt" true]
    ⟨[], []⟩ (by decide)
  exact ⟨h.1, h.2.1, h.2.2.1 "/out/notes.md", h.2.2.2.2.1⟩

/-- C10: in single-file mode, a supported input always has the output's
parent directory created first and the output path probed second — also on
runs that then skip or fail — while the unsupported-extension rejection
returns before touching the filesystem at all. -/
theorem claim_C10_mkdir_before_probe (env : Env) (inP outP : String) (co : Bool)
    (fs : FS) :
    (gateAccepts inP = false →
      convertSingleFile env inP outP co ⟨fs, []⟩ =
        (.error ("Unsupported input file: " ++ inP), ⟨fs, []⟩)) ∧
    (gateAccepts inP = true →
      (∃ t, (convertSingleFile env inP outP co ⟨fs, []⟩).2.events =
        Event.mkdirp (dirname outP) :: Event.statPath outP :: t) ∧
      (startsWithStr "/tmp/input-docx-" (dirname outP) = false →
        (convertSingleFile env inP outP co ⟨fs, []⟩).2.fs.dirs.contains
          (dirname outP) = true)) := by
  constructor
  · intro h
    unfold gateAccepts at h
    unfold convertSingleFile
    rw [h]
    rfl
  · intro h
    unfold gateAccepts at h
    unfold convertSingleFile
    rw [h]
    simp only [Bool.not_true, Bool.false_eq_true, if_false]
    have hbase : (emit (Event.statPath outP) (doMkdirp (dirname outP)
        ⟨fs, []⟩)).events = [Event.mkdirp (dirname outP), Event.statPath outP] := by
      simp [emit, doMkdirp]
    have hdirs : (emit (Event.statPath outP) (doMkdirp (dirname outP)
        ⟨fs, []⟩)).fs.dirs.contains (dirname outP) = true := by
      simp only [emit, doMkdirp]
      exact contains_addDir_self (dirname outP) (World.mk fs []).fs
    rcases hstat : statNode (emit (Event.statPath outP) (doMkdirp (dirname outP)
        ⟨fs, []⟩)).fs outP with _ | node
    · dsimp only
      constructor
      · obtain ⟨t, ht⟩ := convertAndWriteSingle_events env inP outP
          (emit (Event.statPath outP) (doMkdirp (dirname outP) ⟨fs, []⟩))
        rw [hbase] at ht
        exact ⟨t, ht⟩
      · intro htemp
        rw [convertAndWriteSingle_dirs_frame env inP outP _ _ htemp]
        exact hdirs
    · cases node with
      | dirNode =>
        dsimp only
        exact ⟨⟨[], hbase⟩, fun _ => hdirs⟩
      | fileNode c =>
        cases co with
        | false =>
          dsimp only
          constructor
          · exact ⟨[Event.skipEv outP], by simp [emit, doMkdirp]⟩
          · intro _
            exact hdirs
        | true =>
          dsimp only
          constructor
          · obtain ⟨t, ht⟩ := convertAndWriteSingle_events env inP outP
              (doRmFile outP (emit (Event.statPath outP)
                (doMkdirp (dirname outP) ⟨fs, []⟩)))
            rw [show (doRmFile outP (emit (Event.statPath outP)
              (doMkdirp (dirname outP) ⟨fs, []⟩))).events =
              [Event.mkdirp (dirname outP), Event.statPath outP,
                Event.rmFileEv outP] from by simp [doRmFile, emit, doMkdirp]] at ht
            exact ⟨[Event.rmFileEv outP] ++ t, by simp [ht]⟩
          · intro htemp
            rw [if_pos (rfl : true = true)]
            rw [convertAndWriteSingle_dirs_frame env inP outP _ _ htemp]
            simp only [doRmFile, dirs_removeFile]
            exact hdirs

/-- Instantiation of C10 at an unsupported and a supported input. -/
theorem claim_C10_mkdir_before_probe_witness :
    convertSingleFile envAll "a.txt" "/out/a.md" false wEmpty =
      (.error "Unsupported input file: a.txt", wEmpty) ∧
    (∃ t, (convertSingleFile envAll "/in/a.docx" "/out/a.md" false wEmpty).2.events =
      Event.mkdirp "/out" :: Event.statPath "/out/a.md" :: t) := by
  constructor
  · exact (claim_C10_mkdir_before_probe envAll "a.txt" "/out/a.md" false
      ⟨[], []⟩).1 (by decide)
  · have h := ((claim_C10_mkdir_before_probe envAll "/in/a.docx" "/out/a.md" false
      ⟨[], []⟩).2 (by decide)).1
    rw [show dirname "/out/a.md" = "/out" from by decide] at h
    exact h

/-- C8: in single-file mode with `clearOutput` and a pre-existing regular
file at the output path, the file is deleted before the adapter runs; when
conversion then fails the error propagates and no file remains at the
output path — the old output is not restored. -/
theorem claim_C8_clear_then_fail (env : Env) (inP outP : String) (fs : FS)
    (c e : String)
    (hgate : gateAccepts inP = true)
    (hnotdir : fs.dirs.contains outP = false)
    (hod : outP ≠ dirname outP)
    (hfile : lookupFile fs outP = some c)
    (htemp : startsWithStr "/tmp/input-docx-" outP = false)
    (hfail : ∀ w, (convertDocument env inP w).1 = .error e) :
    (convertSingleFile env inP outP true ⟨fs, []⟩).1 = .error e ∧
    lookupFile (convertSingleFile env inP outP true ⟨fs, []⟩).2.fs outP = none ∧
    (∃ t, (convertSingleFile env inP outP true ⟨fs, []⟩).2.events =
      [Event.mkdirp (dirname outP), Event.statPath outP, Event.rmFileEv outP,
        Event.adapterCall inP] ++ t) := by
  unfold gateAccepts at hgate
  unfold convertSingleFile
  rw [hgate]
  simp only [Bool.not_true, Bool.false_eq_true, if_false]
  have hstat : statNode (emit (Event.statPath outP) (doMkdirp (dirname outP)
      ⟨fs, []⟩)).fs outP = some (.fileNode c) := by
    simp only [emit, doMkdirp]
    unfold statNode
    rw [show (addDir (dirname outP) (World.mk fs []).fs).dirs.contains outP =
      fs.dirs.contains outP from dirs_addDir_ne _ _ _ hod]
    rw [hnotdir]
    simp only [Bool.false_eq_true, if_false]
    rw [show lookupFile (addDir (dirname outP) (World.mk fs []).fs) outP =
      lookupFile fs outP from lookup_addDir _ _ _]
    rw [hfile]
  rw [hstat]
  dsimp only
  rw [if_pos trivial]
  unfold convertAndWriteSingle
  rcases hcd : convertDocument env inP (doRmFile outP (emit (Event.statPath outP)
      (doMkdirp (dirname outP) ⟨fs, []⟩))) with ⟨r, w2⟩
  have hr : r = .error e := by
    have := hfail (doRmFile outP (emit (Event.statPath outP)
      (doMkdirp (dirname outP) ⟨fs, []⟩)))
    rw [hcd] at this
    exact this
  subst hr
  dsimp only
  refine ⟨rfl, ?_, ?_⟩
  · have hfr := (convertDocument_frame env inP (doRmFile outP (emit (Event.statPath outP)
      (doMkdirp (dirname outP) ⟨fs, []⟩))) outP htemp).1
    rw [hcd] at hfr
    rw [hfr]
    simp only [doRmFile]
    exact lookup_removeFile_self outP _
  · obtain ⟨t, ht⟩ := convertDocument_events env inP (doRmFile outP
      (emit (Event.statPath outP) (doMkdirp (dirname outP) ⟨fs, []⟩)))
    rw [hcd] at ht
    simp only at ht
    refine ⟨t, ?_⟩
    rw [ht]
    simp [doRmFile, emit, doMkdirp]

/-- Instantiation of C8: clearing `/out/a.md` then failing on the DOCX
adapter leaves nothing at the output path. -/
theorem claim_C8_clear_then_fail_witness :
    (convertSingleFile envDocxErr "/in/a.docx" "/out/a.md" true
      ⟨⟨[("/out/a.md", "OLD")], ["/out"]⟩, []⟩).1 = .error "broken document" ∧
    lookupFile (convertSingleFile envDocxErr "/in/a.docx" "/out/a.md" true
      ⟨⟨[("/out/a.md", "OLD")], ["/out"]⟩, []⟩).2.fs "/out/a.md" = none := by
  have h := claim_C8_clear_then_fail envDocxErr "/in/a.docx" "/out/a.md"
    ⟨[("/out/a.md", "OLD")], ["/out"]⟩ "OLD" "broken document"
    (by decide) (by decide) (by decide) (by decide) (by decide)
    (fun w => rfl)
  exact ⟨h.1, h.2.1⟩

theorem underPath_self (r : String) : underPath r r = true := by
  simp [underPath]

theorem convertDocToDocx_access (env : Env) (p : String) (w : World)
    (art : TempArtifact) (h : (convertDocToDocx env p w).1 = .ok art) :
    (statNode (convertDocToDocx env p w).2.fs art.docxPath).isSome = true := by
  unfold convertDocToDocx at h ⊢
  split at h
  · cases h
  · dsimp only at h ⊢
    split at h
    · cases h
    · next heq =>
      injection h with h
      subst h
      rw [heq]
      rfl

/-- Counterexample to C2 as stated: when the LibreOffice subprocess fails,
`convertDocToDocx` rejects before the `try`/`finally` is entered, so the
call returns with the error while the freshly created temporary directory
still exists — the claimed "temporary directory no longer exists after the
call returns, whether the call succeeds or fails" is violated. -/
theorem claim_C2_doc_cleanup_counterexample :
    (convertDocument envSofficeErr "/in/a.doc" wEmpty).1 =
      .error "LibreOffice conversion failed (exit code 1)" ∧
    (convertDocument envSofficeErr "/in/a.doc" wEmpty).2.fs.dirs.contains
      "/tmp/input-docx-t1" = true := by
  exact ⟨rfl, rfl⟩

/-- C2 amended: a `.doc` input is materialized as a temporary `.docx` in the
`mkdtemp` directory and converted exactly as a native `.docx` input (same
`convertDocxToMarkdown` call); whenever the DOC→DOCX materialization step
itself succeeds, the temporary directory and everything under it no longer
exist after the call returns, whether the subsequent DOCX→Markdown
conversion succeeds or fails.  (When materialization itself fails, the error
propagates but the temporary directory is left behind.) -/
theorem claim_C2_doc_pipeline_amended (env : Env) (p : String) (w : World)
    (art : TempArtifact)
    (hext : strToLower (extname p) = ".doc")
    (hok : (convertDocToDocx env p (emit (Event.adapterCall p) w)).1 = .ok art) :
    (statNode (convertDocToDocx env p (emit (Event.adapterCall p) w)).2.fs
        art.docxPath).isSome = true ∧
    (convertDocument env p w).1 = convertDocxToMarkdown env art.docxPath ∧
    (∀ (q : String) (w' : World), strToLower (extname q) = ".docx" →
      (convertDocument env q w').1 = convertDocxToMarkdown env q) ∧
    (convertDocument env p w).2.fs.dirs.contains art.tempDir = false ∧
    (∀ q, underPath art.tempDir q = true →
      lookupFile (convertDocument env p w).2.fs q = none) := by
  have hacc := convertDocToDocx_access env p (emit (Event.adapterCall p) w) art hok
  have hne1 : (strToLower (extname p) == ".docx") = false := by
    rw [hext]; decide
  have heq2 : (strToLower (extname p) == ".doc") = true := by
    rw [hext]; decide
  have hroute : ∀ (q : String) (w' : World), strToLower (extname q) = ".docx" →
      (convertDocument env q w').1 = convertDocxToMarkdown env q := by
    intro q w' hq
    unfold convertDocument
    dsimp only
    rw [show (strToLower (extname q) == ".docx") = true from by rw [hq]; decide]
    rfl
  refine ⟨hacc, ?_, hroute, ?_, ?_⟩
  · unfold convertDocument
    dsimp only
    rw [hne1, heq2]
    simp only [Bool.false_eq_true, if_false, if_true]
    rcases hcd : convertDocToDocx env p (emit (Event.adapterCall p) w) with ⟨r, w2⟩
    rw [hcd] at hok
    simp only at hok
    subst hok
    rfl
  · unfold convertDocument
    dsimp only
    rw [hne1, heq2]
    simp only [Bool.false_eq_true, if_false, if_true]
    rcases hcd : convertDocToDocx env p (emit (Event.adapterCall p) w) with ⟨r, w2⟩
    rw [hcd] at hok
    simp only at hok
    subst hok
    dsimp only
    simp only [doRmTree]
    exact dirs_rmTree_under art.tempDir w2.fs art.tempDir (underPath_self _)
  · unfold convertDocument
    dsimp only
    rw [hne1, heq2]
    simp only [Bool.false_eq_true, if_false, if_true]
    rcases hcd : convertDocToDocx env p (emit (Event.adapterCall p) w) with ⟨r, w2⟩
    rw [hcd] at hok
    simp only at hok
    subst hok
    dsimp only
    intro q hq
    simp only [doRmTree]
    exact lookup_rmTree_under art.tempDir w2.fs q hq

/-- Instantiation of the amended C2 on a successful DOC conversion. -/
theorem claim_C2_doc_pipeline_amended_witness :
    (convertDocument envAll "/in/a.doc" wEmpty).1 =
      convertDocxToMarkdown envAll "/tmp/input-docx-t1/a.docx" ∧
    (convertDocument envAll "/in/a.doc" wEmpty).2.fs.dirs.contains
      "/tmp/input-docx-t1" = false ∧
    lookupFile (convertDocument envAll "/in/a.doc" wEmpty).2.fs
      "/tmp/input-docx-t1/a.docx" = none := by
  have h := claim_C2_doc_pipeline_amended envAll "/in/a.doc" wEmpty
    ⟨"/tmp/input-docx-t1/a.docx", "/tmp/input-docx-t1"⟩ (by decide) rfl
  exact ⟨h.2.1, h.2.2.2.1, h.2.2.2.2 "/tmp/input-docx-t1/a.docx" (by decide)⟩

theorem statNode_addDir_ne_none (d : String) (fs : FS) (p : String)
    (h : statNode fs p ≠ none) : statNode (addDir d fs) p ≠ none := by
  unfold statNode at h ⊢
  cases hc : (addDir d fs).dirs.contains p
  · rw [lookup_addDir]
    cases ho : fs.dirs.contains p
    · rw [ho] at h
      simpa using h
    · have := contains_addDir_true d fs p ho
      rw [hc] at this
      cases this
  · simp

/-- C4: a second directory run with `clearOutput = false` over an unchanged
input set, in which every eligible file's target `.md` already exists, skips
every file: no adapter invocation, no write, and the files on disk are left
byte-identical. -/
theorem claim_C4_idempotent_skip (env : Env) (inDir outDir : String)
    (entries : List DirEntry) (fs : FS)
    (h : ∀ e ∈ eligibleFiles entries, statNode fs (tgtPathOf outDir e.name) ≠ none) :
    (convertDirectory env inDir outDir false entries ⟨fs, []⟩).1 = .ok () ∧
    (convertDirectory env inDir outDir false entries ⟨fs, []⟩).2.fs.files = fs.files ∧
    (∀ q, Event.adapterCall q ∉
      (convertDirectory env inDir outDir false entries ⟨fs, []⟩).2.events) ∧
    (∀ q, Event.writeFile q ∉
      (convertDirectory env inDir outDir false entries ⟨fs, []⟩).2.events) := by
  unfold convertDirectory
  simp only [Bool.false_eq_true, if_false]
  split
  · refine ⟨rfl, by simp [emit, doMkdirp, files_addDir], ?_, ?_⟩
    · intro q
      simp [emit, doMkdirp]
    · intro q
      simp [emit, doMkdirp]
  · have hall : ∀ n ∈ (eligibleFiles entries).map DirEntry.name,
        statNode (doMkdirp outDir ⟨fs, []⟩).fs (tgtPathOf outDir n) ≠ none := by
      intro n hn
      obtain ⟨e, he, rfl⟩ := List.mem_map.mp hn
      simp only [doMkdirp]
      exact statNode_addDir_ne_none outDir (World.mk fs []).fs _ (h e he)
    obtain ⟨hfs, t, ht, hshape⟩ := processEntries_skipAll env inDir outDir
      ((eligibleFiles entries).map DirEntry.name) (doMkdirp outDir ⟨fs, []⟩) hall
    refine ⟨rfl, ?_, ?_, ?_⟩
    · rw [hfs]
      simp [doMkdirp, files_addDir]
    · intro q hq
      rw [ht] at hq
      rcases List.mem_append.mp hq with hm | hm
      · simp [doMkdirp] at hm
      · rcases hshape _ hm with ⟨p, hp⟩ | ⟨p, hp⟩ <;> cases hp
    · intro q hq
      rw [ht] at hq
      rcases List.mem_append.mp hq with hm | hm
      · simp [doMkdirp] at hm
      · rcases hshape _ hm with ⟨p, hp⟩ | ⟨p, hp⟩ <;> cases hp

/-- Instantiation of C4: one eligible file whose target already exists. -/
theorem claim_C4_idempotent_skip_witness :
    (convertDirectory envAll "/in" "/out" false [DirEntry.mk "a.docx" true]
      ⟨⟨[("/out/a.md", "MD")], ["/out"]⟩, []⟩).1 = .ok () ∧
    (convertDirectory envAll "/in" "/out" false [DirEntry.mk "a.docx" true]
      ⟨⟨[("/out/a.md", "MD")], ["/out"]⟩, []⟩).2.fs.files = [("/out/a.md", "MD")] ∧
    Event.adapterCall "/in/a.docx" ∉
      (convertDirectory envAll "/in" "/out" false [DirEntry.mk "a.docx" true]
        ⟨⟨[("/out/a.md", "MD")], ["/out"]⟩, []⟩).2.events ∧
    Event.writeFile "/out/a.md" ∉
      (convertDirectory envAll "/in" "/out" false [DirEntry.mk "a.docx" true]
        ⟨⟨[("/out/a.md", "MD")], ["/out"]⟩, []⟩).2.events := by
  have h := claim_C4_idempotent_skip envAll "/in" "/out" [DirEntry.mk "a.docx" true]
    ⟨[("/out/a.md", "MD")], ["/out"]⟩ (by decide)
  exact ⟨h.1, h.2.1, h.2.2.1 "/in/a.docx", h.2.2.2 "/out/a.md"⟩

theorem lookup_none_filter (l : List (String × String))
    (f : String × String → Bool) (q : String)
    (h : l.lookup q = none) : (l.filter f).lookup q = none := by
  induction l with
  | nil => rfl
  | cons kv rest ih =>
    obtain ⟨k, v⟩ := kv
    cases hk : (q == k) with
    | true =>
      simp only [List.lookup, hk] at h
      cases h
    | false =>
      simp only [List.lookup, hk] at h
      cases hf : f (k, v) with
      | true => simp only [List.filter_cons, hf, if_true, List.lookup, hk]; exact ih h
      | false => simp only [List.filter_cons, hf]; exact ih h

theorem contains_false_filter (l : List String) (f : String → Bool) (q : String)
    (h : l.contains q = false) : (l.filter f).contains q = false := by
  rw [Bool.eq_false_iff] at h ⊢
  intro hc
  exact h ((contains_iff_mem _ _).mpr
    (List.mem_filter.mp ((contains_iff_mem _ _).mp hc)).1)

/-- C1: in directory mode the batch never rejects and the process exit code
stays 0; every eligible file is resolved — its failure logged, its target
skipped, or its target written — so a full pass happens; and a file whose
conversion succeeds is still written even when other files fail. -/
theorem claim_C1_failure_isolation (env : Env) (inDir outDir : String) (co : Bool)
    (entries : List DirEntry) (fs : FS) :
    (convertDirectory env inDir outDir co entries ⟨fs, []⟩).1 = .ok () ∧
    (statNode fs inDir = some .dirNode →
      (mainModel env inDir outDir co entries ⟨fs, []⟩).1 = 0) ∧
    (∀ e ∈ eligibleFiles entries,
      (∃ m, Event.errorEv (srcPathOf inDir e.name) m ∈
        (convertDirectory env inDir outDir co entries ⟨fs, []⟩).2.events) ∨
      Event.skipEv (tgtPathOf outDir e.name) ∈
        (convertDirectory env inDir outDir co entries ⟨fs, []⟩).2.events ∨
      Event.writeFile (tgtPathOf outDir e.name) ∈
        (convertDirectory env inDir outDir co entries ⟨fs, []⟩).2.events) ∧
    (∀ name md : String, (∃ e ∈ eligibleFiles entries, e.name = name) →
      (∀ w', (convertDocument env (srcPathOf inDir name) w').1 = .ok md) →
      env.writeError (tgtPathOf outDir name) = none →
      startsWithStr "/tmp/input-docx-" (tgtPathOf outDir name) = false →
      (∀ n, (∃ e ∈ eligibleFiles entries, e.name = n) →
        tgtPathOf outDir n = tgtPathOf outDir name → n = name) →
      statNode fs (tgtPathOf outDir name) = none →
      tgtPathOf outDir name ≠ outDir →
      lookupFile (convertDirectory env inDir outDir co entries ⟨fs, []⟩).2.fs
        (tgtPathOf outDir name) = some md) := by
  refine ⟨convertDirectory_ok env inDir outDir co entries ⟨fs, []⟩,
    fun h => dirExitZero env inDir outDir co entries ⟨fs, []⟩ h, ?_, ?_⟩
  · intro e he
    unfold convertDirectory
    dsimp only
    split
    · next hlen =>
      exfalso
      have : eligibleFiles entries = [] := by
        simpa using List.length_eq_zero.mp (by simpa using hlen)
      rw [this] at he
      cases he
    · have := processEntries_resolution env inDir outDir co
        ((eligibleFiles entries).map DirEntry.name)
        (doMkdirp outDir (if co then doRmTree outDir ⟨fs, []⟩ else ⟨fs, []⟩))
        e.name (List.mem_map.mpr ⟨e, he, rfl⟩)
      exact this
  · intro name md hmem hconv hwe htemp hdisj hstat hne
    unfold convertDirectory
    dsimp only
    split
    · next hlen =>
      exfalso
      obtain ⟨e, he, _⟩ := hmem
      have : eligibleFiles entries = [] := by
        simpa using List.length_eq_zero.mp (by simpa using hlen)
      rw [this] at he
      cases he
    · obtain ⟨hd, hl⟩ := (statNode_none_iff _ _).mp hstat
      have hstat1 : statNode (doMkdirp outDir
          (if co then doRmTree outDir ⟨fs, []⟩ else ⟨fs, []⟩)).fs
          (tgtPathOf outDir name) = none := by
        cases co with
        | false =>
          rw [if_neg Bool.false_ne_true]
          simp only [doMkdirp]
          refine (statNode_none_iff _ _).mpr ⟨?_, ?_⟩
          · rw [dirs_addDir_ne _ _ _ hne]
            exact hd
          · rw [lookup_addDir]
            exact hl
        | true =>
          rw [if_pos rfl]
          simp only [doMkdirp, doRmTree]
          refine (statNode_none_iff _ _).mpr ⟨?_, ?_⟩
          · rw [dirs_addDir_ne _ _ _ hne]
            exact contains_false_filter _ _ _ hd
          · rw [lookup_addDir]
            exact lookup_none_filter _ _ _ hl
      refine processEntries_establish env inDir outDir co (tgtPathOf outDir name)
        md name htemp hconv hwe rfl
        ((eligibleFiles entries).map DirEntry.name) ?_ ?_ _ hstat1
      · obtain ⟨e, he, hename⟩ := hmem
        exact List.mem_map.mpr ⟨e, he, hename⟩
      · intro n hn ht
        obtain ⟨e, he, hename⟩ := List.mem_map.mp hn
        exact hdisj n ⟨e, he, hename⟩ ht

/-- Instantiation of C1: two eligible files, the first one failing in the
adapter; the batch returns ok, the exit code is 0, and the good file's
Markdown is still written. -/
theorem claim_C1_failure_isolation_witness :
    (convertDirectory envMix "/in" "/out" false
      [DirEntry.mk "bad.docx" true, DirEntry.mk "good.docx" true]
      ⟨⟨[], ["/in"]⟩, []⟩).1 = .ok () ∧
    (mainModel envMix "/in" "/out" false
      [DirEntry.mk "bad.docx" true, DirEntry.mk "good.docx" true]
      ⟨⟨[], ["/in"]⟩, []⟩).1 = 0 ∧
    lookupFile (convertDirectory envMix "/in" "/out" false
      [DirEntry.mk "bad.docx" true, DirEntry.mk "good.docx" true]
      ⟨⟨[], ["/in"]⟩, []⟩).2.fs "/out/good.md" = some "# converted" := by
  have h := claim_C1_failure_isolation envMix "/in" "/out" false
    [DirEntry.mk "bad.docx" true, DirEntry.mk "good.docx" true] ⟨[], ["/in"]⟩
  refine ⟨h.1, h.2.1 (by decide), ?_⟩
  have hc := h.2.2.2 "good.docx" "# converted" (by decide) (fun w' => rfl)
    rfl (by decide)
    (by
      intro n hn ht
      have hel : eligibleFiles [DirEntry.mk "bad.docx" true,
          DirEntry.mk "good.docx" true] =
          [DirEntry.mk "bad.docx" true, DirEntry.mk "good.docx" true] := by decide
      obtain ⟨e, he, hname⟩ := hn
      rw [hel] at he
      rcases List.mem_cons.mp he with rfl | he2
      · rw [← hname] at ht
        exact absurd ht (by decide)
      · rcases List.mem_cons.mp he2 with rfl | he3
        · exact hname.symm
        · cases he3)
    (by decide) (by decide)
  rw [show tgtPathOf "/out" "good.docx" = "/out/good.md" from by decide] at hc
  exact hc
